import Mathlib

/-!
Shallow embedding of the struct-marshal package (Go): a transcoder that
routes record fields through dotted "jsonpath"-style paths into a generic
string-keyed tree, driven by per-field `sm` tag annotations.

Conventions of the embedding:
* Go values flowing through reflection are modelled by the inductive
  `GoValue`; the static type information that `reflect` reads from struct
  declarations (element type of a slice, field list of a struct type) is
  carried by `GoType` where the code consults it.
* The generic tree (`map[string]interface greater-brace less-brace` built
  by `encoding/json`) is `JValue` / `JMap`; Go map lookup and in-place
  update become `mapGet` / `mapSet` over association lists.
* A Go panic (unchecked type assertion, index out of range, unsupported
  reflect kind) is `Except.error msg`; a Go error *returned* from a
  function is part of the ok-payload (`JMap × Option String`), because the
  source sometimes discards returned errors while panics always propagate.
* Functions keep the source's names and control-flow shape so each can be
  diffed against the corresponding Go function.
-/

/- Static Go type information, as the decoder reads it through `reflect`
(`Value.Type().Elem()`, struct field enumeration with tags), together with
runtime values and struct fields carrying their raw `sm` tag strings. -/
mutual
inductive GoType where
  | tStr : GoType
  | tInt : GoType
  | tBool : GoType
  | tSlice : GoType → GoType
  | tMapT : GoType → GoType
  | tStructT : String → List GoFieldT → GoType
  | tPtrT : GoType → GoType
  | tFunc : GoType
  | tChan : GoType

inductive GoFieldT where
  | mk : String → String → GoType → GoFieldT

inductive GoValue where
  | vStr : String → GoValue
  | vInt : Int → GoValue
  | vBool : Bool → GoValue
  | vSlice : GoType → List GoValue → GoValue
  | vMap : List (String × GoValue) → GoValue
  | vStruct : String → List GoField → GoValue
  | vPtr : Option GoValue → GoValue
  | vFunc : GoValue
  | vChan : GoValue

inductive GoField where
  | mk : String → String → GoValue → GoField
end

/-- Field name of a struct field (reflect.StructField.Name). -/
def GoField.fname : GoField → String
  | .mk n _ _ => n

/-- Raw `sm` tag string of a struct field; "" models an absent tag. -/
def GoField.rawTag : GoField → String
  | .mk _ t _ => t

/-- Runtime value held by a struct field. -/
def GoField.value : GoField → GoValue
  | .mk _ _ v => v

/-- The generic tree produced by and consumed from `encoding/json`:
scalars, sequences, and string-keyed maps. -/
inductive JValue where
  | jStr : String → JValue
  | jInt : Int → JValue
  | jBool : Bool → JValue
  | jList : List JValue → JValue
  | jMap : List (String × JValue) → JValue

/-- A Go `map[string]interface` tree node, as an association list. -/
abbrev JMap := List (String × JValue)

/-- Go map lookup: `m[k]`, nil (none) when the key is absent. -/
def mapGet : JMap → String → Option JValue
  | [], _ => none
  | (k, v) :: rest, key => if k == key then some v else mapGet rest key

/-- Go map update `m[k] = v`: replaces the entry for the key or adds one. -/
def mapSet : JMap → String → JValue → JMap
  | [], key, v => [(key, v)]
  | (k, w) :: rest, key, v =>
      if k == key then (key, v) :: rest else (k, w) :: mapSet rest key v

/-- Helper for `splitChar`, accumulating the current segment reversed. -/
def splitCharAux (sep : Char) : List Char → List Char → List String
  | acc, [] => [String.mk acc.reverse]
  | acc, c :: rest =>
      if c == sep then String.mk acc.reverse :: splitCharAux sep [] rest
      else splitCharAux sep (c :: acc) rest

/-- Go `strings.Split(s, sep)` for a one-character separator (the source
only ever splits on ".", ",", "|" and ":"). `splitChar sep ""` is `[""]`,
matching `strings.Split`. -/
def splitChar (sep : Char) (s : String) : List String :=
  splitCharAux sep [] s.data

/-- Decimal value of a digit string (how `strconv.Atoi` reads the index
digits; on the empty capture Atoi errors and the ignored-error index stays
0, which this function also returns). -/
def digitsToNat : List Char → Nat → Nat
  | [], acc => acc
  | c :: rest, acc => digitsToNat rest (acc * 10 + (c.toNat - 48))

/-- The array-segment regular expression of the source,
matchArrayExp with the shape caret (.*) lbracket ([0-9]*) rbracket dollar:
a greedy prefix, then a bracketed digit string ending the segment. Returns
the captured field name and the parsed index. -/
def matchArray (s : String) : Option (String × Nat) :=
  let cs := s.data
  match cs.getLast? with
  | some ch =>
      if ch == ']' then
        let body := cs.dropLast
        let digs := (body.reverse.takeWhile (fun c => c.isDigit)).reverse
        let pre := body.take (body.length - digs.length)
        match pre.getLast? with
        | some lb =>
            if lb == '[' then some (String.mk pre.dropLast, digitsToNat digs 0)
            else none
        | none => none
      else none
  | none => none

/-- One clause of the `types` tag option: override path and type name
(source struct `TypeMatch`, fields `Path` then `Name`). -/
structure TypeMatch where
  Path : List String
  Name : String
deriving DecidableEq

/-- Parsed tag options (source struct `TagOpts`). -/
structure TagOpts where
  MatchTypes : List TypeMatch
deriving DecidableEq

/-- Parsed field tag (source struct `FieldTag`; `RawPath` is declared in
the source but never assigned, so it is omitted here). -/
structure FieldTag where
  RawOpts : List String
  Path : List String
  Opts : TagOpts
deriving DecidableEq

/-- The zero `FieldTag`, what `parseTag` returns for an absent tag. -/
def FieldTag.empty : FieldTag := { RawOpts := [], Path := [], Opts := { MatchTypes := [] } }

/-- One clause of `parseTypeMatches`: split on ":" into a type name and an
optional override path (itself split on "."). -/
def parseTypeMatch1 (typeOpt : String) : TypeMatch :=
  match splitChar ':' typeOpt with
  | [] => { Path := [], Name := "" }
  | [tn] => { Path := [], Name := tn }
  | tn :: fp :: _ => { Path := splitChar '.' fp, Name := tn }

/-- Source `parseTypeMatches`: split the captured text on "|" and parse
each clause, preserving declaration order. -/
def parseTypeMatches (data : String) : List TypeMatch :=
  (splitChar '|' data).map parseTypeMatch1

/-- The TYPE_OPTS_REGEX test, caret types less (greater-free nonempty text)
greater dollar: returns the captured inner text when the option matches. -/
def matchTypesOpt (opt : String) : Option String :=
  match opt.data with
  | 't' :: 'y' :: 'p' :: 'e' :: 's' :: '<' :: rest =>
      match rest.getLast? with
      | some ch =>
          if ch == '>' then
            let inner := rest.dropLast
            if inner.isEmpty || inner.any (fun c => c == '>') then none
            else some (String.mk inner)
          else none
      | none => none
  | _ => none

/-- Source `parseTagOpts`: each option matching the types pattern replaces
the accumulated MatchTypes (the source assigns, so the last match wins). -/
def parseTagOpts (opts : List String) : TagOpts :=
  opts.foldl
    (fun acc opt =>
      match matchTypesOpt opt with
      | some inner => { MatchTypes := parseTypeMatches inner }
      | none => acc)
    { MatchTypes := [] }

/-- Source `parseTag`: an empty raw tag means skip; otherwise split on ","
into the main path (split on ".") and the options. -/
def parseTag (rawString : String) : FieldTag × Bool :=
  if rawString == "" then (FieldTag.empty, true)
  else
    let tagParts := splitChar ',' rawString
    let path := splitChar '.' (tagParts.headD "")
    let rawOpts := tagParts.tail
    let opts := if tagParts.length > 1 then parseTagOpts rawOpts else { MatchTypes := [] }
    ({ RawOpts := rawOpts, Path := path, Opts := opts }, false)

/-- Source `FieldTag.findTypeMatch`: `none` models the nil pointer (type
options are present but none matches), `some` the found clause, and the
empty clause models the fresh empty TypeMatch returned when there are no
type options or the queried type name is empty. -/
def findTypeMatch (t : FieldTag) (typeName : String) : Option TypeMatch :=
  if t.Opts.MatchTypes.length > 0 && typeName != "" then
    t.Opts.MatchTypes.find? (fun m => m.Name == typeName)
  else
    some { Path := [], Name := "" }

/-- Error message constant ERROR_PER_TYPE_PATH_IS_NOT_VALID of the source. -/
def ERROR_PER_TYPE_PATH_IS_NOT_VALID : String :=
  "main path should be '+' when using per-type path matching"

/-- Path token DISMISS_NESTED of the source. -/
def DISMISS_NESTED : String := "->"

/-- Path token MULTI_TYPE_NAME of the source. -/
def MULTI_TYPE_NAME : String := "+"

/-- Runtime state of the source struct `Field` (the `stfield` member is
reduced to the field name, the only part of it the code reads; `Kind` is
recoverable from `Value` and omitted). -/
structure FieldSt where
  tag : FieldTag
  Target : String
  Value : GoValue
  Skip : Bool
  Path : List String
  stname : String

/- Go `reflect.Value.IsZero`, structurally: zero scalars, nil pointer,
struct with all fields zero. A nil slice or map is zero in Go; the model
identifies nil with the empty sequence, and models `vFunc` and `vChan` as
non-nil (hence non-zero) instances of those kinds. -/
mutual
def isZero : GoValue → Bool
  | .vStr s => s == ""
  | .vInt n => n == 0
  | .vBool b => b == false
  | .vSlice _ xs => xs.isEmpty
  | .vMap kvs => kvs.isEmpty
  | .vStruct _ fs => isZeroFields fs
  | .vPtr p => p.isNone
  | .vFunc => false
  | .vChan => false

def isZeroFields : List GoField → Bool
  | [] => true
  | .mk _ _ v :: rest => isZero v && isZeroFields rest
end

/-- The single pointer dereference the source performs before walking a
struct (`if data.Kind() == reflect.Ptr then data = data.Elem()`); a nil
pointer dereferences to the invalid zero Value, modelled by returning the
nil pointer itself (no case below treats it as a struct). -/
def derefVal : GoValue → GoValue
  | .vPtr (some u) => u
  | v => v

/-- Source `Field.IsStruct`: struct kind, or pointer whose pointee has
struct kind (a nil pointer's Elem has Invalid kind, hence false). -/
def isStructV : GoValue → Bool
  | .vStruct _ _ => true
  | .vPtr (some (.vStruct _ _)) => true
  | _ => false

/-- Source `Field.IsStructSlice`: slice kind whose static element type has
struct kind. -/
def isStructSlice : GoValue → Bool
  | .vSlice (.tStructT _ _) _ => true
  | _ => false

/-- Go `reflect.Type.Name()` of a value's type: named primitives report
their names, structs their declared name, and unnamed composite types
(slices, maps, pointers, funcs, chans) the empty string. -/
def typeNameOf : GoValue → String
  | .vStr _ => "string"
  | .vInt _ => "int"
  | .vBool _ => "bool"
  | .vStruct n _ => n
  | _ => ""

/-- Source `getTypeName`: dereference one pointer level, then ask the
type's name. On a nil pointer the dereference yields the invalid zero
Value and `Type()` panics. -/
def getTypeName : GoValue → Except String String
  | .vPtr (some u) => .ok (typeNameOf u)
  | .vPtr none => .error "reflect: call of reflect.Value.Type on zero Value"
  | v => .ok (typeNameOf v)

/-- Source `Field.DissmisNesting`: the first path segment is the
dismiss-nesting token (the source indexes `path[0]`; every path built by
`parseTag` is nonempty, missing heads default to ""). -/
def dissmisNesting (path : List String) : Bool :=
  path.headD "" == DISMISS_NESTED

/-- Source `Field.GetPathAsParent`: nil (here []) when the field's path
dismisses nesting, else the field's path. -/
def getPathAsParent (f : FieldSt) : List String :=
  if dissmisNesting f.Path then [] else f.Path

/-- Source `Field.ChRoot`: prepend the parent path when one is given (a
nil variadic slice is modelled by []). -/
def chRoot (f : FieldSt) (root : List String) : FieldSt :=
  if root.isEmpty then f else { f with Path := root ++ f.Path }

/-- Source `Field.SkipIfEmpty`: mark the field skipped when its value is
the zero value. -/
def skipIfEmpty (f : FieldSt) : FieldSt :=
  if isZero f.Value then { f with Skip := true } else f

/-- Source `Field.checkPerTypePathNaming`: a matched clause carrying an
override path demands that the tag's main path be exactly the one-segment
multi-type token. `some` is the returned configuration error. -/
def checkPerTypePathNaming (f : FieldSt) (mtch : TypeMatch) : Option String :=
  let matchHasPath := mtch.Path.length > 0
  let mainPathMatches := f.tag.Path.headD "" != MULTI_TYPE_NAME
  let mainPathMaxLen := decide (f.tag.Path.length > 1)
  if (matchHasPath && mainPathMatches) || (matchHasPath && mainPathMaxLen) then
    some ERROR_PER_TYPE_PATH_IS_NOT_VALID
  else
    none

/-- Source `Field.resolvePath`: default the path to the tag's main path;
on a found type clause validate per-type naming and take the override path
when present, otherwise mark the field skipped. The source stores the
error and returns it after updating the path; the caller aborts on it, so
the error case discards the updated state here. -/
def resolvePath (f : FieldSt) : Except String FieldSt :=
  let f := { f with Path := f.tag.Path }
  match findTypeMatch f.tag f.Target with
  | some mtch =>
      let err := checkPerTypePathNaming f mtch
      let f := if mtch.Path.length > 0 then { f with Path := mtch.Path } else f
      match err with
      | some e => .error e
      | none => .ok f
  | none => .ok { f with Skip := true }

/-- Source `Field.Init` for the field at one index: record value, target
type name and field name, parse the tag, and either mark the field skipped
(absent tag) or resolve its path. The error is Go's returned error. -/
def fieldInit (stname : String) (rawTag : String) (value : GoValue)
    (rootStruct : String) : Except String FieldSt :=
  let parsed := parseTag rawTag
  let f : FieldSt :=
    { tag := parsed.1, Target := rootStruct, Value := value,
      Skip := parsed.2, Path := [], stname := stname }
  if parsed.2 then .ok f else resolvePath f

/-- Result record of the source `parseNestedPath`. -/
structure NestedPath where
  idx : Nat
  field : String
  isArray : Bool
  data : Option JMap

/-- Source `parseNestedPath`: test the first path segment against the
array pattern. In the array branch a present value is asserted to be a
sequence, indexed (panicking when the index is out of range), and the
element asserted to be a map; in the plain branch a present value is
asserted to be a map. An absent value leaves `data` nil. `Except.error`
is a Go panic. -/
def parseNestedPath (src : JMap) (path : List String) : Except String NestedPath :=
  match matchArray (path.headD "") with
  | some (fieldName, idx) =>
      match mapGet src fieldName with
      | none => .ok { idx := idx, field := fieldName, isArray := true, data := none }
      | some v =>
          match v with
          | .jList xs =>
              match xs.get? idx with
              | none => .error "runtime error: index out of range"
              | some e =>
                  match e with
                  | .jMap mm =>
                      .ok { idx := idx, field := fieldName, isArray := true, data := some mm }
                  | _ => .error "interface conversion: interface is not a map"
          | _ => .error "interface conversion: interface is not a slice"
  | none =>
      let fieldName := path.headD ""
      match mapGet src fieldName with
      | none => .ok { idx := 0, field := fieldName, isArray := false, data := none }
      | some v =>
          match v with
          | .jMap mm => .ok { idx := 0, field := fieldName, isArray := false, data := some mm }
          | _ => .error "interface conversion: interface is not a map"

/-- Source `Field.GetValueFromMap`: a one-segment path reads the key
directly (nil when absent); a longer path parses the nested step and
recurses into its data, yielding nil when the data is nil. The empty path
hits the source's unreachable-branch panic. -/
def getValueFromMap (src : JMap) (path : List String) : Except String (Option JValue) :=
  match path with
  | [] => .error "well well, how did we get here?"
  | [seg] => .ok (mapGet src seg)
  | seg :: rest => do
      let nested ← parseNestedPath src (seg :: rest)
      match nested.data with
      | some d => getValueFromMap d rest
      | none => .ok none

/-- Size fact used for termination: a struct obtained by the single
pointer dereference is structurally smaller than the original value. -/
theorem sizeOf_derefVal_struct {v : GoValue} {n : String} {cfs : List GoField}
    (h : derefVal v = GoValue.vStruct n cfs) : sizeOf cfs < sizeOf v := by
  cases v with
  | vStr s => simp [derefVal] at h
  | vInt i => simp [derefVal] at h
  | vBool b => simp [derefVal] at h
  | vSlice t xs => simp [derefVal] at h
  | vMap kvs => simp [derefVal] at h
  | vStruct m fs =>
      simp [derefVal] at h
      obtain ⟨h1, h2⟩ := h
      subst h2
      simp
  | vPtr p =>
      cases p with
      | none => simp [derefVal] at h
      | some u =>
          simp [derefVal] at h
          subst h
          simp
          omega
  | vFunc => simp [derefVal] at h
  | vChan => simp [derefVal] at h

/- The encoder: `Field.getFieldValue`, `Field.SetValueIntoMap` (with
`initEmptyNestedMapField` inlined at its two call shapes) and
`StructEncoder.generate` are mutually recursive in the source, through the
struct case of getFieldValue and the nested-generate calls. The ok-payload
of `encFields` pairs the destination map's final state with the error the
Go function *returns*, because the dismiss-nesting branch and the struct
case of getFieldValue discard that returned error while the map mutations
persist; `Except.error` stays reserved for panics. -/
mutual

/-- Source `Field.getFieldValue`: scalars copy, slices and maps recurse
element- and value-wise, structs run a fresh nested `generate` whose
returned error is discarded (source line `builder.generate(...)`), a
pointer dereferences (a nil pointer reaches the default branch with the
Invalid kind), and any other kind panics naming the kind. -/
def getFieldValue (tr : String) (fv : GoValue) : Except String JValue :=
  match fv with
  | .vStr s => .ok (.jStr s)
  | .vInt n => .ok (.jInt n)
  | .vBool b => .ok (.jBool b)
  | .vSlice _ xs => do
      let l ← getFieldValueList tr xs
      .ok (.jList l)
  | .vMap kvs => do
      let l ← getFieldValuePairs tr kvs
      .ok (.jMap l)
  | .vStruct _ fs => do
      let r ← encFields tr fs []
      .ok (.jMap r.1)
  | .vPtr (some u) => getFieldValue tr u
  | .vPtr none => .error "unsupported type: invalid"
  | .vFunc => .error "unsupported type: func"
  | .vChan => .error "unsupported type: chan"
termination_by (sizeOf fv, 0)

/-- Element-wise `getFieldValue` over a slice (the source's loop that
appends each element's value). -/
def getFieldValueList (tr : String) (xs : List GoValue) : Except String (List JValue) :=
  match xs with
  | [] => .ok []
  | x :: rest => do
      let v ← getFieldValue tr x
      let l ← getFieldValueList tr rest
      .ok (v :: l)
termination_by (sizeOf xs, 0)

/-- Value-wise `getFieldValue` over a map's entries (the source's
MapRange loop; iteration order is the association order here). -/
def getFieldValuePairs (tr : String) (kvs : List (String × GoValue)) :
    Except String (List (String × JValue)) :=
  match kvs with
  | [] => .ok []
  | (k, x) :: rest => do
      let v ← getFieldValue tr x
      let l ← getFieldValuePairs tr rest
      .ok ((k, v) :: l)
termination_by (sizeOf kvs, 0)

/-- Source `Field.SetValueIntoMap`: at a one-segment path write the
field's value under the key (under the dismiss token the source rebinds
its local variable, so the caller's map is unchanged after the value and
its map assertion are evaluated); at a longer path parse the nested step,
create the missing container exactly as `initEmptyNestedMapField` does
(a fresh one-slot sequence panics for a nonzero index, a fresh map
otherwise), recurse, and reinstall the updated submap where Go mutated it
in place. An empty path takes neither source branch and is a no-op. -/
def setValueIntoMap (tr : String) (value : GoValue) (path : List String) (dst : JMap) :
    Except String JMap :=
  match path with
  | [] => .ok dst
  | [seg] =>
      if dissmisNesting [seg] then do
        let v ← getFieldValue tr value
        match v with
        | .jMap _ => .ok dst
        | _ => .error "interface conversion: interface is not a map"
      else do
        let v ← getFieldValue tr value
        .ok (mapSet dst seg v)
  | seg :: seg2 :: rest => do
      let nested ← parseNestedPath dst (seg :: seg2 :: rest)
      match nested.data with
      | some d => do
          let d2 ← setValueIntoMap tr value (seg2 :: rest) d
          if nested.isArray then
            match mapGet dst nested.field with
            | some (.jList xs) =>
                .ok (mapSet dst nested.field (.jList (xs.set nested.idx (.jMap d2))))
            | _ => .ok dst
          else
            .ok (mapSet dst nested.field (.jMap d2))
      | none =>
          if nested.isArray then
            if nested.idx == 0 then do
              let d2 ← setValueIntoMap tr value (seg2 :: rest) []
              .ok (mapSet dst nested.field (.jList [.jMap d2]))
            else .error "runtime error: index out of range"
          else do
            let d2 ← setValueIntoMap tr value (seg2 :: rest) []
            .ok (mapSet dst nested.field (.jMap d2))
termination_by (sizeOf value, path.length + 1)

/-- Source `StructEncoder.generate` over the field list of the (already
dereferenced) source struct: initialize each field, return its
initialization error, drop skipped and zero-valued fields, splice a
dismiss-nesting struct's children into the same map (discarding the
returned error, as the source does), and set every other field's value at
its resolved path. -/
def encFields (tr : String) (fields : List GoField) (into : JMap) :
    Except String (JMap × Option String) :=
  match fields with
  | [] => .ok (into, none)
  | .mk stname rawTag v :: rest =>
      match fieldInit stname rawTag v tr with
      | .error e => .ok (into, some e)
      | .ok fld0 =>
          let fld := skipIfEmpty fld0
          if fld.Skip then encFields tr rest into
          else
            match h : derefVal v with
            | .vStruct _ cfs =>
                if dissmisNesting fld.Path then do
                  let r ← encFields tr cfs into
                  encFields tr rest r.1
                else do
                  let into2 ← setValueIntoMap tr v fld.Path into
                  encFields tr rest into2
            | _ => do
                let into2 ← setValueIntoMap tr v fld.Path into
                encFields tr rest into2
termination_by (sizeOf fields, 0)
decreasing_by
all_goals
  first
  | decreasing_tactic
  | (simp_wf
     apply Prod.Lex.left
     have hlt := sizeOf_derefVal_struct h
     simp
     omega)

end

/-- Size fact used for termination: a map lookup returns a structurally
smaller value. -/
theorem sizeOf_mapGet {m : JMap} {k : String} {v : JValue}
    (h : mapGet m k = some v) : sizeOf v < sizeOf m := by
  induction m with
  | nil => simp [mapGet] at h
  | cons kv rest ih =>
      obtain ⟨a, b⟩ := kv
      simp only [mapGet] at h
      split at h
      · injection h with h2
        subst h2
        simp
        omega
      · have hlt := ih h
        simp
        omega

/-- Size fact used for termination: list indexing returns a structurally
smaller element. -/
theorem sizeOf_listGet {xs : List JValue} {i : Nat} {e : JValue}
    (h : xs.get? i = some e) : sizeOf e < sizeOf xs := by
  induction xs generalizing i with
  | nil => simp at h
  | cons x rest ih =>
      cases i with
      | zero =>
          simp only [List.get?] at h
          injection h with h2
          subst h2
          simp
          omega
      | succ j =>
          simp only [List.get?] at h
          have hlt := ih h
          simp
          omega

/-- Size fact used for termination: the nested map step of
`parseNestedPath` descends strictly into the source map. -/
theorem sizeOf_parseNestedPath_data {m : JMap} {p : List String} {np : NestedPath}
    {d : JMap} (h1 : parseNestedPath m p = .ok np) (h2 : np.data = some d) :
    sizeOf d < sizeOf m := by
  unfold parseNestedPath at h1
  cases hma : matchArray (p.headD "") with
  | some pr =>
      obtain ⟨fieldName, idx⟩ := pr
      simp only [hma] at h1
      cases hmg : mapGet m fieldName with
      | none =>
          simp only [hmg] at h1
          cases h1
          simp at h2
      | some v =>
          simp only [hmg] at h1
          cases v with
          | jList xs =>
              cases hg : xs.get? idx with
              | none => simp only [hg] at h1; cases h1
              | some e =>
                  simp only [hg] at h1
                  cases e with
                  | jMap mm =>
                      cases h1
                      simp at h2
                      subst h2
                      have ha := sizeOf_mapGet hmg
                      have hb := sizeOf_listGet hg
                      simp at ha hb
                      omega
                  | jStr s => cases h1
                  | jInt n => cases h1
                  | jBool b => cases h1
                  | jList ys => cases h1
          | jStr s => cases h1
          | jInt n => cases h1
          | jBool b => cases h1
          | jMap mm => cases h1
  | none =>
      simp only [hma] at h1
      cases hmg : mapGet m (p.headD "") with
      | none =>
          simp only [hmg] at h1
          cases h1
          simp at h2
      | some v =>
          simp only [hmg] at h1
          cases v with
          | jMap mm =>
              cases h1
              simp at h2
              subst h2
              have ha := sizeOf_mapGet hmg
              simp at ha
              omega
          | jStr s => cases h1
          | jInt n => cases h1
          | jBool b => cases h1
          | jList ys => cases h1

/-- Size fact used for termination: a value fetched from the tree by
`Field.GetValueFromMap` is structurally smaller than the tree. -/
theorem sizeOf_getValueFromMap {p : List String} :
    ∀ {m : JMap} {v : JValue}, getValueFromMap m p = .ok (some v) → sizeOf v < sizeOf m := by
  induction p with
  | nil =>
      intro m v h
      simp [getValueFromMap] at h
  | cons seg rest ih =>
      intro m v h
      cases rest with
      | nil =>
          simp only [getValueFromMap] at h
          injection h with h2
          exact sizeOf_mapGet h2
      | cons seg2 rest2 =>
          simp only [getValueFromMap] at h
          cases hp : parseNestedPath m (seg :: seg2 :: rest2) with
          | error e => rw [hp] at h; cases h
          | ok np =>
              rw [hp] at h
              simp only [Bind.bind, Except.bind] at h
              cases hd : np.data with
              | none => rw [hd] at h; simp at h
              | some d =>
                  rw [hd] at h
                  have hlt := ih h
                  have hnp := sizeOf_parseNestedPath_data hp hd
                  omega

/- Go `reflect.New(t).Elem()`: the zero value of a static type, used by
`StructDecoder.generateSlice` for each sequence element. The zero func and
chan values share the `vFunc` / `vChan` constructors. -/
mutual
def zeroOf : GoType → GoValue
  | .tStr => .vStr ""
  | .tInt => .vInt 0
  | .tBool => .vBool false
  | .tSlice t => .vSlice t []
  | .tMapT _ => .vMap []
  | .tStructT n fs => .vStruct n (zeroFieldsT fs)
  | .tPtrT _ => .vPtr none
  | .tFunc => .vFunc
  | .tChan => .vChan

def zeroFieldsT : List GoFieldT → List GoField
  | [] => []
  | .mk n tg t :: rest => .mk n tg (zeroOf t) :: zeroFieldsT rest
end

/- The decoder: `StructDecoder.generate` walks the destination shape's
fields, pulling values out of the source tree, and `generateSlice` decodes
each element of a fetched sequence against a fresh zero instance of the
slice's element type. As for the encoder, the ok-payload carries the
returned Go error and `Except.error` is a panic. -/
mutual

/-- Source `StructDecoder.generate` over the (already dereferenced)
destination struct's field list: initialize each field against the
decoder's type restraint, return its initialization error, drop skipped
fields, prefix nested paths with `parents` (ChRoot), recurse into struct
fields with the field's path as parent prefix, fetch every other field
from the source tree at its resolved path (a nil value skips the field),
decode a struct-slice value element-wise, and record the result under the
field's declared name. A struct-kind field is never a struct slice, so
the sequence branch cannot fire for the nested-struct result, which is
also never nil. -/
def decFields (src : JMap) (tr : String) (fields : List GoField) (into : JMap)
    (parents : List String) : Except String (JMap × Option String) :=
  match fields with
  | [] => .ok (into, none)
  | .mk stname rawTag v :: rest =>
      match fieldInit stname rawTag v tr with
      | .error e => .ok (into, some e)
      | .ok fld0 =>
          if fld0.Skip then decFields src tr rest into parents
          else
            let fld := chRoot fld0 parents
            match h : derefVal v with
            | .vStruct _ cfs => do
                let r ← decFields src tr cfs [] (getPathAsParent fld)
                match r.2 with
                | some e => .ok (into, some e)
                | none => decFields src tr rest (mapSet into stname (.jMap r.1)) parents
            | _ =>
                match hv : getValueFromMap src fld.Path with
                | .error e => .error e
                | .ok none => decFields src tr rest into parents
                | .ok (some value) =>
                    match v with
                    | .vSlice (.tStructT _ fsT) _ =>
                        match hvv : value with
                        | .jList xs => do
                            let r ← generateSlice src tr xs fsT
                            match r.2 with
                            | some e => .ok (into, some e)
                            | none => decFields src tr rest (mapSet into stname (.jList r.1)) parents
                        | _ => .error "interface conversion: interface is not a slice"
                    | _ => decFields src tr rest (mapSet into stname value) parents
termination_by (sizeOf src, sizeOf fields)
decreasing_by
all_goals
  first
  | decreasing_tactic
  | (simp_wf
     apply Prod.Lex.right
     have hlt := sizeOf_derefVal_struct h
     simp
     omega)
  | (simp_wf
     apply Prod.Lex.left
     have hs := sizeOf_getValueFromMap hv
     simp at hs
     omega)

/-- Source `StructDecoder.generateSlice`: for each element of the fetched
sequence (asserted to be a map), decode it against a zero instance of the
slice's element struct type and append the decoded map; the first returned
error aborts (its partial output is discarded by the caller). The unused
first parameter records the source tree the sequence was fetched from,
fixing the termination measure. -/
def generateSlice (src : JMap) (tr : String) (value : List JValue)
    (elemFields : List GoFieldT) : Except String (List JValue × Option String) :=
  match value with
  | [] => .ok ([], none)
  | x :: restv =>
      match x with
      | .jMap mm => do
          let r ← decFields mm tr (zeroFieldsT elemFields) [] []
          match r.2 with
          | some e => .ok ([], some e)
          | none => do
              let r2 ← generateSlice src tr restv elemFields
              match r2.2 with
              | some e => .ok ([], some e)
              | none => .ok (.jMap r.1 :: r2.1, none)
      | _ => .error "interface conversion: interface is not a map"
termination_by (sizeOf value, 0)

end

/-- Entry of source `StructEncoder.generate`: dereference one pointer
level, then walk the struct's fields (`encFields`); reflect panics when a
non-struct value reaches `NumField`. -/
def encGenerate (tr : String) (srcv : GoValue) (into : JMap) :
    Except String (JMap × Option String) :=
  match derefVal srcv with
  | .vStruct _ fs => encFields tr fs into
  | _ => .error "reflect: NumField of non-struct type"

/-- Entry of source `StructDecoder.generate`: dereference one pointer
level, then walk the destination struct's fields (`decFields`). -/
def decGenerate (src : JMap) (tr : String) (dst : GoValue) (into : JMap)
    (parents : List String) : Except String (JMap × Option String) :=
  match derefVal dst with
  | .vStruct _ fs => decFields src tr fs into parents
  | _ => .error "reflect: NumField of non-struct type"

/-- State of the source `StructEncoder` after Init. -/
structure StructEncoderSt where
  src : GoValue
  dst : GoValue
  typeRestrain : String

/-- Source `StructEncoder.Init`: store both arguments and the
destination's type name, and return nil — no validation of `dst` is
performed (`getTypeName` panics on a nil pointer before Init returns). -/
def encoderInit (src dst : GoValue) : Except String StructEncoderSt := do
  let tn ← getTypeName dst
  .ok { src := src, dst := dst, typeRestrain := tn }

/-- Source `assertNonNilPointer`: a returned error unless the value is a
pointer and non-nil. -/
def assertNonNilPointer (check : GoValue) : Option String :=
  match check with
  | .vPtr (some _) => none
  | _ => some "must be a non-nil pointer"

/-- State of the source `StructDecoder` after Init. -/
structure StructDecoderSt where
  src : GoValue
  dst : GoValue
  typeRestrain : String

/-- Source `StructDecoder.Init`: reject a dst that is not a non-nil
pointer with the explicit returned error, then store the source's type
name (whose computation can panic only after the check passed). -/
def decoderInit (src dst : GoValue) : Except String StructDecoderSt :=
  match assertNonNilPointer dst with
  | some _ => .error "dst must be a non-nil pointer"
  | none => do
      let tn ← getTypeName src
      .ok { src := src, dst := dst, typeRestrain := tn }

/-- Scalar Go values and their tree images (the scalar cases of
`getFieldValue`). -/
def scalarJ : GoValue → Option JValue
  | .vStr s => some (.jStr s)
  | .vInt n => some (.jInt n)
  | .vBool b => some (.jBool b)
  | _ => none

/-- A plain path segment: not an array-indexed segment and not the
dismiss-nesting token. -/
def pathSegOK (s : String) : Bool :=
  (matchArray s).isNone && s != DISMISS_NESTED

/-- A plain, nonempty path of plain segments. -/
def pathOK (p : List String) : Bool :=
  !p.isEmpty && p.all pathSegOK

/-- The path a field's tag declares (its parsed main path). -/
def resolvedPath (f : GoField) : List String :=
  (parseTag f.rawTag).1.Path

/-- A round-trip-compatible field: scalar value, a present annotation
with no type-match options, and a plain declared path. -/
def compatField (f : GoField) : Bool :=
  (scalarJ f.value).isSome &&
  !(parseTag f.rawTag).2 &&
  (parseTag f.rawTag).1.Opts.MatchTypes.isEmpty &&
  pathOK (parseTag f.rawTag).1.Path

/-- Pairwise independence of declared paths: none is a prefix (in
particular, an equal) of another. -/
def pathsIndep : List (List String) → Bool
  | [] => true
  | p :: rest =>
      rest.all (fun q => !(p.isPrefixOf q) && !(q.isPrefixOf p)) && pathsIndep rest

/-- Pairwise distinct declared field names. -/
def namesDistinct : List GoField → Bool
  | [] => true
  | f :: rest => rest.all (fun g => g.fname != f.fname) && namesDistinct rest

/-- A round-trip-compatible annotated record shape: every field
compatible, declared paths pairwise prefix-free, field names distinct. -/
def compatRecord (fields : List GoField) : Bool :=
  fields.all compatField && pathsIndep (fields.map resolvedPath) && namesDistinct fields

/-- Zero value of the same scalar kind (fresh destination record fields;
non-scalar kinds are outside the compat fragment and kept unchanged). -/
def zeroLike : GoValue → GoValue
  | .vStr _ => .vStr ""
  | .vInt _ => .vInt 0
  | .vBool _ => .vBool false
  | v => v

/-- The fresh zero-valued destination record sharing a record's shape. -/
def zeroFieldsOf (fields : List GoField) : List GoField :=
  fields.map (fun f => GoField.mk f.fname f.rawTag (zeroLike f.value))

/-- Record field lookup by declared name. -/
def fieldLookup : List GoField → String → Option GoValue
  | [], _ => none
  | .mk n _ v :: rest, key => if n == key then some v else fieldLookup rest key

/-- Modelled from the spec: the external generic codec's hydration of one
field (spec 4.6 phase 2 and the section 6 collaborator contract; the codec
is `encoding/json`, outside this repository's core). A scalar field takes
the tree value of its own kind; other combinations are outside the compat
fragment and leave the field unchanged. -/
def hydrateValue (cur : GoValue) (j : JValue) : GoValue :=
  match cur, j with
  | .vStr _, .jStr s => .vStr s
  | .vInt _, .jInt n => .vInt n
  | .vBool _, .jBool b => .vBool b
  | c, _ => c

/-- Modelled from the spec: hydrate a fresh record from the decoder's
name-addressed output map — each field takes the value stored under its
declared name, absent names leave the field zero. -/
def hydrateFields (fields : List GoField) (out : JMap) : List GoField :=
  fields.map (fun f =>
    match mapGet out f.fname with
    | some j => GoField.mk f.fname f.rawTag (hydrateValue f.value j)
    | none => f)

/-- The composition the round-trip law quantifies over: encode the record
into a tree (Marshal's generate), assume the compatible peer instance
represents that tree faithfully (spec section 8: the external codec is
correct, so hydrating the peer and re-encoding it is the identity on the
shared paths), decode the tree against the record's own shape (Unmarshal's
generate on a fresh zero record), and hydrate. `none` when either
direction fails. -/
def roundTrip (trEnc trDec : String) (fields : List GoField) : Option (List GoField) :=
  match encFields trEnc fields [] with
  | .ok (tree, none) =>
      match decFields tree trDec (zeroFieldsOf fields) [] [] with
      | .ok (out, none) => some (hydrateFields (zeroFieldsOf fields) out)
      | _ => none
  | _ => none

/-- Go `reflect.Kind.String()` for the kinds this model distinguishes,
as interpolated into the unsupported-type panic message. -/
def kindName : GoValue → String
  | .vStr _ => "string"
  | .vInt _ => "int"
  | .vBool _ => "bool"
  | .vSlice _ _ => "slice"
  | .vMap _ => "map"
  | .vStruct _ _ => "struct"
  | .vPtr _ => "ptr"
  | .vFunc => "func"
  | .vChan => "chan"

/-- Helper: on an empty destination map, a plain path walk reaches the
final segment, so a panic of `getFieldValue` propagates out of
`SetValueIntoMap` unchanged. -/
theorem setValueIntoMap_error_of_getFieldValue_error
    {tr : String} {v : GoValue} {e : String} {p : List String}
    (hp : pathOK p = true) (hv : getFieldValue tr v = .error e) :
    setValueIntoMap tr v p [] = .error e := by
  induction p with
  | nil => simp [pathOK] at hp
  | cons seg rest ih =>
      simp only [pathOK, List.isEmpty_cons, Bool.not_false, List.all_cons, Bool.true_and] at hp
      have hseg : pathSegOK seg = true := (Bool.and_elim_left hp)
      have hma : matchArray seg = none := by
        simp [pathSegOK] at hseg
        exact Option.isNone_iff_eq_none.mp (by simpa using hseg.1)
      have hnd : (seg == DISMISS_NESTED) = false := by
        simp [pathSegOK] at hseg
        simpa using hseg.2
      cases rest with
      | nil =>
          have hd : dissmisNesting [seg] = false := by
            simp [dissmisNesting, List.headD]
            simpa using hnd
          simp only [setValueIntoMap, hd, Bool.false_eq_true, if_false, hv, Bind.bind,
            Except.bind]
      | cons seg2 rest2 =>
          have hrest : pathOK (seg2 :: rest2) = true := by
            simp [pathOK]
            have := Bool.and_elim_right hp
            simpa using this
          have hrec := ih hrest
          simp only [setValueIntoMap, parseNestedPath, List.headD, hma, mapGet, Bind.bind,
            Except.bind, hrec]
          simp

/-- C10: there are source trees on which decoding a field crashes through
an unchecked type assertion instead of yielding absence: a scalar at an
intermediate plain segment, a non-map element under an array-indexed
segment, and a non-sequence value under an array-indexed segment all
panic, both in the raw tree walk and through the decoder's generate. -/
theorem nonmap_intermediate_decode_panics :
    getValueFromMap [("a", .jStr "s")] ["a", "b"]
      = .error "interface conversion: interface is not a map" ∧
    getValueFromMap [("a", .jList [.jStr "x"])] ["a[0]", "b"]
      = .error "interface conversion: interface is not a map" ∧
    getValueFromMap [("a", .jInt 1)] ["a[0]", "b"]
      = .error "interface conversion: interface is not a slice" ∧
    decFields [("a", .jStr "s")] "Src" [GoField.mk "F" "a.b" (.vStr "")] [] []
      = .error "interface conversion: interface is not a map" := by
  refine ⟨rfl, rfl, rfl, ?_⟩
  simp [decFields, fieldInit, parseTag, splitChar, splitCharAux, FieldTag.empty,
    parseTagOpts, matchTypesOpt, parseTypeMatches, parseTypeMatch1, resolvePath,
    findTypeMatch, checkPerTypePathNaming, skipIfEmpty, isZero, chRoot,
    getPathAsParent, dissmisNesting, derefVal, getValueFromMap, parseNestedPath,
    matchArray, digitsToNat, mapGet, mapSet, DISMISS_NESTED, MULTI_TYPE_NAME,
    Bind.bind, Except.bind]

/-- C4 counterexample: fetching index 0 of a present but empty sequence
panics (index out of range) instead of yielding the absent outcome, so
out-of-bounds indices do crash the decoder's tree walk. -/
theorem array_index_out_of_range_panics :
    getValueFromMap [("list", .jList [])] ["list[0]", "x"]
      = .error "runtime error: index out of range" := rfl

/-- C4 (amended): at an array-indexed non-final segment, a missing
sequence yields the absent outcome without crashing, but an index at or
beyond the length of a present sequence panics instead of yielding
absence. -/
theorem missing_sequence_absent_oob_panics
    (m : JMap) (seg fieldName : String) (idx : Nat) (rest : List String)
    (hm : matchArray seg = some (fieldName, idx)) (hr : rest ≠ []) :
    (mapGet m fieldName = none → getValueFromMap m (seg :: rest) = .ok none) ∧
    (∀ xs : List JValue, mapGet m fieldName = some (.jList xs) → xs.length ≤ idx →
      getValueFromMap m (seg :: rest) = .error "runtime error: index out of range") := by
  cases rest with
  | nil => exact absurd rfl hr
  | cons r rs =>
      constructor
      · intro hmg
        simp [getValueFromMap, parseNestedPath, hm, hmg, Bind.bind, Except.bind]
      · intro xs hmg hlen
        have hg : xs[idx]? = none := by
          rw [List.getElem?_eq_none_iff]
          exact hlen
        simp [getValueFromMap, parseNestedPath, hm, hmg, hg, Bind.bind, Except.bind]

/-- Witness for C4 at concrete inputs: a missing "list" key is absent, an
empty present sequence panics at index 0. -/
theorem missing_sequence_absent_oob_panics_witness :
    getValueFromMap [("other", .jInt 1)] ["list[0]", "x"] = .ok none ∧
    getValueFromMap [("list", .jList [])] ["list[0]", "x"]
      = .error "runtime error: index out of range" :=
  ⟨(missing_sequence_absent_oob_panics [("other", .jInt 1)] "list[0]" "list" 0 ["x"]
      rfl (by decide)).1 rfl,
   (missing_sequence_absent_oob_panics [("list", .jList [])] "list[0]" "list" 0 ["x"]
      rfl (by decide)).2 [] rfl (by decide)⟩

/-- C3 counterexample: `StructEncoder.Init` (the engine behind Marshal)
performs no validation of dst — with a non-pointer dst it succeeds instead
of returning the error "dst must be a non-nil pointer". -/
theorem marshal_init_no_dst_validation :
    encoderInit (.vStr "s") (.vStr "x")
      = .ok { src := .vStr "s", dst := .vStr "x", typeRestrain := "string" } := rfl

/-- C3 (amended): only Unmarshal's `StructDecoder.Init` validates dst,
returning the explicit error for any dst that is not a non-nil pointer;
Marshal's `StructEncoder.Init` never returns that error (it either
succeeds or panics inside getTypeName on a nil pointer). -/
theorem dst_validation_decoder_only (src dst : GoValue)
    (h : assertNonNilPointer dst ≠ none) :
    decoderInit src dst = .error "dst must be a non-nil pointer" ∧
    ∀ src2 dst2 : GoValue, encoderInit src2 dst2 ≠ .error "dst must be a non-nil pointer" := by
  constructor
  · cases ha : assertNonNilPointer dst with
    | none => exact absurd ha h
    | some e => simp [decoderInit, ha]
  · intro src2 dst2
    cases dst2 with
    | vPtr p =>
        cases p with
        | none => simp [encoderInit, getTypeName, Bind.bind, Except.bind]
        | some u => simp [encoderInit, getTypeName, Bind.bind, Except.bind]
    | vStr s => simp [encoderInit, getTypeName, Bind.bind, Except.bind]
    | vInt n => simp [encoderInit, getTypeName, Bind.bind, Except.bind]
    | vBool b => simp [encoderInit, getTypeName, Bind.bind, Except.bind]
    | vSlice t xs => simp [encoderInit, getTypeName, Bind.bind, Except.bind]
    | vMap kvs => simp [encoderInit, getTypeName, Bind.bind, Except.bind]
    | vStruct n fs => simp [encoderInit, getTypeName, Bind.bind, Except.bind]
    | vFunc => simp [encoderInit, getTypeName, Bind.bind, Except.bind]
    | vChan => simp [encoderInit, getTypeName, Bind.bind, Except.bind]

/-- Witness for C3 at a concrete non-pointer dst. -/
theorem dst_validation_decoder_only_witness :
    decoderInit (.vStr "s") (.vStr "x") = .error "dst must be a non-nil pointer" ∧
    ∀ src2 dst2 : GoValue, encoderInit src2 dst2 ≠ .error "dst must be a non-nil pointer" :=
  dst_validation_decoder_only (.vStr "s") (.vStr "x") (by decide)

/-- C8 counterexample: encoding a func-kind field panics (the error is a
crash propagating out of getFieldValue), it is not returned as the call's
error value. -/
theorem unsupported_kind_panic_counterexample :
    encFields "T" [GoField.mk "F" "a" .vFunc] [] = .error "unsupported type: func" := by
  simp [encFields, fieldInit, parseTag, splitChar, splitCharAux, parseTagOpts,
    resolvePath, findTypeMatch, checkPerTypePathNaming, skipIfEmpty, isZero,
    derefVal, dissmisNesting, setValueIntoMap, getFieldValue, mapSet,
    DISMISS_NESTED, MULTI_TYPE_NAME, Bind.bind, Except.bind]

/-- C8 (amended): a func- or chan-kind field with a present plain
annotation makes Encode panic with the message "unsupported type: "
followed by the kind name — a crash, not an error return value. -/
theorem unsupported_kind_panics
    (stname rawTag tr : String) (t : FieldTag) (v : GoValue) (rest : List GoField)
    (hp : parseTag rawTag = (t, false))
    (hopts : t.Opts.MatchTypes = [])
    (hpath : pathOK t.Path = true)
    (hv : v = .vFunc ∨ v = .vChan) :
    encFields tr (GoField.mk stname rawTag v :: rest) []
      = .error ("unsupported type: " ++ kindName v) := by
  have hinit : fieldInit stname rawTag v tr
      = .ok { tag := t, Target := tr, Value := v, Skip := false, Path := t.Path,
              stname := stname } := by
    simp [fieldInit, hp, resolvePath, findTypeMatch, hopts, checkPerTypePathNaming]
  rcases hv with h | h
  · subst h
    have hgf : getFieldValue tr .vFunc = .error ("unsupported type: " ++ kindName .vFunc) := by
      simp [getFieldValue, kindName]
    have hset := setValueIntoMap_error_of_getFieldValue_error hpath hgf
    simp only [encFields, hinit]
    simp [skipIfEmpty, isZero, derefVal, hset, Bind.bind, Except.bind]
  · subst h
    have hgf : getFieldValue tr .vChan = .error ("unsupported type: " ++ kindName .vChan) := by
      simp [getFieldValue, kindName]
    have hset := setValueIntoMap_error_of_getFieldValue_error hpath hgf
    simp only [encFields, hinit]
    simp [skipIfEmpty, isZero, derefVal, hset, Bind.bind, Except.bind]

/-- Witness for C8 at a concrete chan-kind field. -/
theorem unsupported_kind_panics_witness :
    encFields "T" (GoField.mk "F" "a" .vChan :: []) []
      = .error ("unsupported type: " ++ kindName .vChan) :=
  unsupported_kind_panics "F" "a" "T"
    { RawOpts := [], Path := ["a"], Opts := { MatchTypes := [] } } .vChan []
    rfl rfl (by decide) (Or.inr rfl)

/-- C9: when the conversion's type-restraint name is empty (an anonymous
opposite type), type gating is bypassed: a field carrying type-match
options resolves with its primary path and is not skipped. -/
theorem empty_restraint_uses_primary_path
    (stname rawTag : String) (v : GoValue) (t : FieldTag)
    (hp : parseTag rawTag = (t, false))
    (hopts : t.Opts.MatchTypes ≠ []) :
    fieldInit stname rawTag v ""
      = .ok { tag := t, Target := "", Value := v, Skip := false, Path := t.Path,
              stname := stname } := by
  simp [fieldInit, hp, resolvePath, findTypeMatch, checkPerTypePathNaming]

/-- Witness for C9 at a concrete annotation with two listed types. -/
theorem empty_restraint_uses_primary_path_witness :
    fieldInit "Name" "p,types<A|B>" (.vStr "v") ""
      = .ok { tag := { RawOpts := ["types<A|B>"], Path := ["p"],
                       Opts := { MatchTypes := [ { Path := [], Name := "A" },
                                                 { Path := [], Name := "B" } ] } },
              Target := "", Value := .vStr "v", Skip := false, Path := ["p"],
              stname := "Name" } :=
  empty_restraint_uses_primary_path "Name" "p,types<A|B>" (.vStr "v")
    { RawOpts := ["types<A|B>"], Path := ["p"],
      Opts := { MatchTypes := [ { Path := [], Name := "A" },
                                { Path := [], Name := "B" } ] } }
    rfl (by decide)

/-- C6 counterexample: with an empty type-restraint name (an anonymous
opposite type, which is not among the listed names A, B) the type-gated
field is not skipped — its value is written to the output, so the claim
fails for the unlisted name "". -/
theorem type_gate_bypassed_empty_restraint :
    encFields "" [GoField.mk "Name" "p,types<A|B>" (.vStr "v")] []
      = .ok ([("p", .jStr "v")], none) := by
  simp [encFields, fieldInit, parseTag, splitChar, splitCharAux, parseTagOpts,
    matchTypesOpt, parseTypeMatches, parseTypeMatch1, resolvePath, findTypeMatch,
    checkPerTypePathNaming, skipIfEmpty, isZero, derefVal, dissmisNesting,
    setValueIntoMap, getFieldValue, mapSet, DISMISS_NESTED, MULTI_TYPE_NAME,
    Bind.bind, Except.bind]

/-- C6 (amended): for every nonempty type-restraint name not among the
listed type names, the type-gated field resolves as skipped without error,
and both generate directions behave exactly as if the field were absent,
so the output cannot depend on the field's source value. -/
theorem type_gate_skips_unlisted_nonempty_restraint
    (stname rawTag tr : String) (v : GoValue) (t : FieldTag)
    (rest restD : List GoField) (m src into : JMap) (parents : List String)
    (hp : parseTag rawTag = (t, false))
    (hopts : t.Opts.MatchTypes ≠ [])
    (htr : tr ≠ "")
    (hmiss : ∀ mt ∈ t.Opts.MatchTypes, mt.Name ≠ tr) :
    (∃ fld : FieldSt, fieldInit stname rawTag v tr = .ok fld ∧ fld.Skip = true) ∧
    encFields tr (GoField.mk stname rawTag v :: rest) m = encFields tr rest m ∧
    decFields src tr (GoField.mk stname rawTag v :: restD) into parents
      = decFields src tr restD into parents := by
  have hlen : t.Opts.MatchTypes.length > 0 := List.length_pos.mpr hopts
  have hfind : findTypeMatch t tr = none := by
    simp only [findTypeMatch]
    rw [if_pos]
    · rw [List.find?_eq_none]
      intro mt hmt
      simpa using hmiss mt hmt
    · simp [hlen, htr]
  have hinit : fieldInit stname rawTag v tr
      = .ok { tag := t, Target := tr, Value := v, Skip := true, Path := t.Path,
              stname := stname } := by
    simp [fieldInit, hp, resolvePath, hfind]
  refine ⟨⟨_, hinit, rfl⟩, ?_, ?_⟩
  · simp only [encFields, hinit]
    cases hz : isZero v <;> simp [skipIfEmpty, hz]
  · simp only [decFields, hinit]
    simp

/-- Witness for C6 at a concrete field, restraint name "C". -/
theorem type_gate_skips_unlisted_nonempty_restraint_witness :
    (∃ fld : FieldSt, fieldInit "Name" "p,types<A|B>" (.vStr "v") "C" = .ok fld ∧
       fld.Skip = true) ∧
    encFields "C" (GoField.mk "Name" "p,types<A|B>" (.vStr "v") :: []) []
      = encFields "C" [] [] ∧
    decFields [] "C" (GoField.mk "Name" "p,types<A|B>" (.vStr "v") :: []) [] []
      = decFields [] "C" [] [] [] :=
  type_gate_skips_unlisted_nonempty_restraint "Name" "p,types<A|B>" "C" (.vStr "v")
    { RawOpts := ["types<A|B>"], Path := ["p"],
      Opts := { MatchTypes := [ { Path := [], Name := "A" },
                                { Path := [], Name := "B" } ] } }
    [] [] [] [] [] []
    rfl (by decide) (by decide) (by decide)

/-- C2 counterexample: a field whose annotation combines an override path
with the non-multi-type primary path "foo" does not fail on the call that
carries the unlisted nonempty restraint name "B" — the field is silently
skipped there, so the error is not raised on every call regardless of the
restraint name. -/
theorem perTypePath_misdeclared_unmatched_no_error :
    encFields "B" [GoField.mk "Name" "foo,types<A:x.y>" (.vStr "v")] [] = .ok ([], none) ∧
    decFields [] "B" [GoField.mk "Name" "foo,types<A:x.y>" (.vStr "v")] [] [] = .ok ([], none) := by
  constructor <;>
    simp [encFields, decFields, fieldInit, parseTag, splitChar, splitCharAux,
      parseTagOpts, matchTypesOpt, parseTypeMatches, parseTypeMatch1, resolvePath,
      findTypeMatch, checkPerTypePathNaming, skipIfEmpty, isZero, derefVal,
      dissmisNesting, DISMISS_NESTED, MULTI_TYPE_NAME, Bind.bind, Except.bind]

/-- C2 (amended): when the call's type-restraint name does match a clause
carrying an override path and the primary path is not exactly the single
multi-type token, field initialization returns the configuration error and
both Encode's and Decode's generate return it — deterministically on every
such call. -/
theorem perTypePath_misdeclared_fails_on_matching_restraint
    (stname rawTag tr : String) (v : GoValue) (t : FieldTag) (mt : TypeMatch)
    (rest restD : List GoField) (m src into : JMap) (parents : List String)
    (hp : parseTag rawTag = (t, false))
    (hf : findTypeMatch t tr = some mt)
    (hmp : mt.Path ≠ [])
    (hmain : t.Path ≠ [MULTI_TYPE_NAME]) :
    fieldInit stname rawTag v tr = .error ERROR_PER_TYPE_PATH_IS_NOT_VALID ∧
    encFields tr (GoField.mk stname rawTag v :: rest) m
      = .ok (m, some ERROR_PER_TYPE_PATH_IS_NOT_VALID) ∧
    decFields src tr (GoField.mk stname rawTag v :: restD) into parents
      = .ok (into, some ERROR_PER_TYPE_PATH_IS_NOT_VALID) := by
  have hmplen : mt.Path.length > 0 := List.length_pos.mpr hmp
  have hcond : ∀ f : FieldSt, f.tag = t →
      checkPerTypePathNaming f mt = some ERROR_PER_TYPE_PATH_IS_NOT_VALID := by
    intro f hft
    simp only [checkPerTypePathNaming, hft]
    rw [if_pos]
    cases htp : t.Path with
    | nil =>
        simp [hmplen, MULTI_TYPE_NAME]
    | cons a as =>
        cases as with
        | nil =>
            have ha : a ≠ MULTI_TYPE_NAME := by
              intro hcontra
              exact hmain (by rw [htp, hcontra])
            simp [hmplen, ha]
        | cons b bs =>
            simp [hmplen]
  have hinit : fieldInit stname rawTag v tr = .error ERROR_PER_TYPE_PATH_IS_NOT_VALID := by
    simp only [fieldInit, hp]
    simp only [Bool.false_eq_true, if_false]
    simp only [resolvePath, hf]
    rw [hcond _ rfl]
  refine ⟨hinit, ?_, ?_⟩
  · simp only [encFields, hinit]
  · simp only [decFields, hinit]

/-- Witness for C2 at a concrete annotation, restraint name "A" matching
the clause that carries the override path. -/
theorem perTypePath_misdeclared_fails_witness :
    fieldInit "Name" "foo,types<A:x.y>" (.vStr "v") "A"
      = .error ERROR_PER_TYPE_PATH_IS_NOT_VALID ∧
    encFields "A" (GoField.mk "Name" "foo,types<A:x.y>" (.vStr "v") :: []) []
      = .ok ([], some ERROR_PER_TYPE_PATH_IS_NOT_VALID) ∧
    decFields [] "A" (GoField.mk "Name" "foo,types<A:x.y>" (.vStr "v") :: []) [] []
      = .ok ([], some ERROR_PER_TYPE_PATH_IS_NOT_VALID) :=
  perTypePath_misdeclared_fails_on_matching_restraint "Name" "foo,types<A:x.y>" "A"
    (.vStr "v")
    { RawOpts := ["types<A:x.y>"], Path := ["foo"],
      Opts := { MatchTypes := [ { Path := ["x", "y"], Name := "A" } ] } }
    { Path := ["x", "y"], Name := "A" }
    [] [] [] [] [] []
    rfl rfl (by decide) (by decide)

/-- Lookup after update at the same key. -/
theorem mapGet_mapSet_self (m : JMap) (k : String) (v : JValue) :
    mapGet (mapSet m k v) k = some v := by
  induction m with
  | nil => simp [mapGet, mapSet]
  | cons kv rest ih =>
      obtain ⟨a, b⟩ := kv
      by_cases hak : a = k
      · subst hak
        simp [mapGet, mapSet]
      · simp [mapGet, mapSet, hak, ih]

/-- Lookup after update at a different key. -/
theorem mapGet_mapSet_other (m : JMap) (k k2 : String) (v : JValue) (h : k ≠ k2) :
    mapGet (mapSet m k v) k2 = mapGet m k2 := by
  induction m with
  | nil => simp [mapGet, mapSet, h]
  | cons kv rest ih =>
      obtain ⟨a, b⟩ := kv
      by_cases hak : a = k
      · subst hak
        simp [mapGet, mapSet, h]
      · simp only [mapSet, show (a == k) = false by simpa using hak]
        by_cases hak2 : a = k2
        · subst hak2
          simp [mapGet]
        · simp [mapGet, hak2, ih]

/-- Tree walkability of a path: every present value along the path's
proper prefix chain is a map, so neither the getter nor the setter hits a
type-assertion panic on the way down (the final segment is unconstrained). -/
def pathClear : JMap → List String → Bool
  | _, [] => true
  | _, [_] => true
  | m, s :: rest =>
      match mapGet m s with
      | none => true
      | some (.jMap mm) => pathClear mm rest
      | some _ => false

/-- The empty map is clear for every path. -/
theorem pathClear_nil (q : List String) : pathClear [] q = true := by
  match q with
  | [] => rfl
  | [t] => rfl
  | t :: t2 :: r => simp [pathClear, mapGet]

/-- Reading any nonempty path out of the empty map yields absence. -/
theorem getValueFromMap_nil (q : List String) (hq : q ≠ []) :
    getValueFromMap [] q = .ok none := by
  match q with
  | [] => exact absurd rfl hq
  | [t] => simp [getValueFromMap, mapGet]
  | t :: t2 :: r =>
      simp only [getValueFromMap, parseNestedPath]
      cases hma : matchArray ((t :: t2 :: r).headD "") <;>
        simp [hma, mapGet, Bind.bind, Except.bind]

/-- A scalar value converts by `getFieldValue` exactly as `scalarJ` says. -/
theorem getFieldValue_scalar {v : GoValue} {jv : JValue} (tr : String)
    (h : scalarJ v = some jv) : getFieldValue tr v = .ok jv := by
  cases v <;> simp [scalarJ] at h <;> simp [getFieldValue, ← h]

/-- A scalar value is nonzero exactly when its zero test fails; its
`zeroLike` is again scalar with the zero payload (only the three scalar
kinds are relevant). -/
theorem scalarJ_isSome_cases {v : GoValue} (h : (scalarJ v).isSome = true) :
    (∃ s, v = .vStr s) ∨ (∃ n, v = .vInt n) ∨ (∃ b, v = .vBool b) := by
  cases v <;> simp_all [scalarJ]

/-- Head segment of a valid path is a valid segment. -/
theorem pathOK_head {s : String} {rest : List String}
    (h : pathOK (s :: rest) = true) : pathSegOK s = true := by
  simp [pathOK] at h
  exact h.1

/-- Tail of a valid path with at least two segments is a valid path. -/
theorem pathOK_tail {s s2 : String} {rest : List String}
    (h : pathOK (s :: s2 :: rest) = true) : pathOK (s2 :: rest) = true := by
  simp [pathOK] at h ⊢
  exact h.2

/-- A valid segment does not match the array pattern. -/
theorem pathSegOK_matchArray {s : String} (h : pathSegOK s = true) :
    matchArray s = none := by
  simp [pathSegOK] at h
  exact Option.isNone_iff_eq_none.mp (by simpa using h.1)

/-- A one-segment path of a valid segment does not dismiss nesting. -/
theorem pathSegOK_not_dismiss {s : String} (h : pathSegOK s = true) :
    dissmisNesting [s] = false := by
  simp [pathSegOK] at h
  simp [dissmisNesting]
  exact h.2

/-- Setting a scalar value at a valid clear path succeeds, and reading the
same path back yields exactly that value. -/
theorem setValueIntoMap_ok_get (tr : String) {val : GoValue} {jv : JValue}
    (hs : scalarJ val = some jv) :
    ∀ (p : List String), pathOK p = true → ∀ (m : JMap), pathClear m p = true →
    ∃ m2, setValueIntoMap tr val p m = .ok m2 ∧
      getValueFromMap m2 p = .ok (some jv) := by
  intro p
  induction p with
  | nil => intro hp; simp [pathOK] at hp
  | cons s rest ih =>
      intro hp m hc
      have hseg : pathSegOK s = true := pathOK_head hp
      cases rest with
      | nil =>
          have hd := pathSegOK_not_dismiss hseg
          have hgf := getFieldValue_scalar tr hs
          refine ⟨mapSet m s jv, ?_, ?_⟩
          · simp [setValueIntoMap, hd, hgf, Bind.bind, Except.bind]
          · simp [getValueFromMap, mapGet_mapSet_self]
      | cons s2 r2 =>
          have hma := pathSegOK_matchArray hseg
          have hrestOK := pathOK_tail hp
          cases hmg : mapGet m s with
          | none =>
              obtain ⟨d2, hset2, hget2⟩ := ih hrestOK [] (pathClear_nil _)
              refine ⟨mapSet m s (.jMap d2), ?_, ?_⟩
              · simp [setValueIntoMap, parseNestedPath, hma, hmg, hset2,
                  Bind.bind, Except.bind]
              · simp [getValueFromMap, parseNestedPath, hma, mapGet_mapSet_self,
                  hget2, Bind.bind, Except.bind]
          | some v0 =>
              cases v0 with
              | jMap mm =>
                  have hcmm : pathClear mm (s2 :: r2) = true := by
                    simp [pathClear, hmg] at hc
                    exact hc
                  obtain ⟨d2, hset2, hget2⟩ := ih hrestOK mm hcmm
                  refine ⟨mapSet m s (.jMap d2), ?_, ?_⟩
                  · simp [setValueIntoMap, parseNestedPath, hma, hmg, hset2,
                      Bind.bind, Except.bind]
                  · simp [getValueFromMap, parseNestedPath, hma, mapGet_mapSet_self,
                      hget2, Bind.bind, Except.bind]
              | jStr s0 => simp [pathClear, hmg] at hc
              | jInt n0 => simp [pathClear, hmg] at hc
              | jBool b0 => simp [pathClear, hmg] at hc
              | jList xs0 => simp [pathClear, hmg] at hc

/-- Two cons lists that are mutually non-prefixes either differ at the
head or agree there with mutually non-prefix tails. -/
theorem not_prefix_heads {s t : String} {ps qs : List String}
    (hpq : (s :: ps).isPrefixOf (t :: qs) = false)
    (hqp : (t :: qs).isPrefixOf (s :: ps) = false) :
    (t == s) = false ∨ (s = t ∧ ps.isPrefixOf qs = false ∧ qs.isPrefixOf ps = false) := by
  by_cases hst : s = t
  · subst hst
    simp [List.isPrefixOf] at hpq hqp
    exact Or.inr ⟨rfl, by simpa using hpq, by simpa using hqp⟩
  · exact Or.inl (beq_eq_false_iff_ne.mpr (Ne.symm hst))

/-- An update under a different top-level key changes neither reads nor
walkability of a plain path. -/
theorem get_clear_mapSet_other_head (m : JMap) (s : String) (X : JValue)
    (t : String) (qrest : List String)
    (htma : matchArray t = none) (hts : (t == s) = false) :
    getValueFromMap (mapSet m s X) (t :: qrest) = getValueFromMap m (t :: qrest) ∧
    (pathClear m (t :: qrest) = true → pathClear (mapSet m s X) (t :: qrest) = true) := by
  have hst : s ≠ t := fun h => by simp [h] at hts
  have hmm : mapGet (mapSet m s X) t = mapGet m t := mapGet_mapSet_other m s t X hst
  cases qrest with
  | nil =>
      constructor
      · simp [getValueFromMap, hmm]
      · intro h
        simp [pathClear]
  | cons t2 qr2 =>
      constructor
      · simp only [getValueFromMap, parseNestedPath, List.headD_cons, htma, hmm]
      · intro h
        simp only [pathClear, hmm]
        simp only [pathClear] at h
        exact h

/-- Setting a value at one valid path leaves reads and walkability of
every prefix-independent valid path untouched. -/
theorem setValueIntoMap_preserves_other (tr : String) {val : GoValue} :
    ∀ (p : List String) (m m2 : JMap),
      pathOK p = true → setValueIntoMap tr val p m = .ok m2 →
      ∀ q : List String, pathOK q = true →
      p.isPrefixOf q = false → q.isPrefixOf p = false →
      getValueFromMap m2 q = getValueFromMap m q ∧
      (pathClear m q = true → pathClear m2 q = true) := by
  intro p
  induction p with
  | nil => intro m m2 hp; simp [pathOK] at hp
  | cons s rest ih =>
      intro m m2 hp hset q hq hpq hqp
      have hseg := pathOK_head hp
      cases q with
      | nil => simp [pathOK] at hq
      | cons t qrest =>
        have htseg := pathOK_head hq
        have htma := pathSegOK_matchArray htseg
        cases rest with
        | nil =>
            have hd := pathSegOK_not_dismiss hseg
            simp only [setValueIntoMap, hd, Bool.false_eq_true, if_false,
              Bind.bind, Except.bind] at hset
            cases hgf : getFieldValue tr val with
            | error e => rw [hgf] at hset; cases hset
            | ok jv0 =>
                rw [hgf] at hset
                injection hset with hm2
                subst hm2
                rcases not_prefix_heads hpq hqp with hts | ⟨hst, htl1, _⟩
                · exact get_clear_mapSet_other_head m s jv0 t qrest htma hts
                · subst hst
                  simp [List.isPrefixOf] at hpq
        | cons s2 pr =>
            have hma := pathSegOK_matchArray hseg
            simp only [setValueIntoMap, parseNestedPath, List.headD_cons, hma,
              Bind.bind, Except.bind] at hset
            cases hmg : mapGet m s with
            | none =>
                simp only [hmg] at hset
                cases hs2 : setValueIntoMap tr val (s2 :: pr) [] with
                | error e => rw [hs2] at hset; cases hset
                | ok d2 =>
                    rw [hs2] at hset
                    simp only [] at hset
                    injection hset with hm2
                    subst hm2
                    rcases not_prefix_heads hpq hqp with hts | ⟨hst, htl1, htl2⟩
                    · exact get_clear_mapSet_other_head m s (.jMap d2) t qrest htma hts
                    · subst hst
                      cases qrest with
                      | nil => simp [List.isPrefixOf] at htl2
                      | cons t2 qr2 =>
                          have hqrestOK : pathOK (t2 :: qr2) = true := pathOK_tail hq
                          have hIH := ih [] d2 (pathOK_tail hp) hs2 (t2 :: qr2)
                            hqrestOK htl1 htl2
                          constructor
                          · have hget0 : getValueFromMap d2 (t2 :: qr2) = .ok none := by
                              rw [hIH.1]
                              exact getValueFromMap_nil _ (by simp)
                            simp [getValueFromMap, parseNestedPath, htma,
                              mapGet_mapSet_self, hmg, hget0, Bind.bind, Except.bind]
                          · intro hcq
                            have hclr : pathClear d2 (t2 :: qr2) = true :=
                              hIH.2 (pathClear_nil _)
                            simp [pathClear, mapGet_mapSet_self, hclr]
            | some v0 =>
                simp only [hmg] at hset
                cases v0 with
                | jMap mm =>
                    simp only [] at hset
                    cases hs2 : setValueIntoMap tr val (s2 :: pr) mm with
                    | error e => rw [hs2] at hset; cases hset
                    | ok d2 =>
                        rw [hs2] at hset
                        simp only [] at hset
                        injection hset with hm2
                        subst hm2
                        rcases not_prefix_heads hpq hqp with hts | ⟨hst, htl1, htl2⟩
                        · exact get_clear_mapSet_other_head m s (.jMap d2) t qrest htma hts
                        · subst hst
                          cases qrest with
                          | nil => simp [List.isPrefixOf] at htl2
                          | cons t2 qr2 =>
                              have hqrestOK : pathOK (t2 :: qr2) = true := pathOK_tail hq
                              have hIH := ih mm d2 (pathOK_tail hp) hs2 (t2 :: qr2)
                                hqrestOK htl1 htl2
                              constructor
                              · simp [getValueFromMap, parseNestedPath, htma,
                                  mapGet_mapSet_self, hmg, hIH.1, Bind.bind, Except.bind]
                              · intro hcq
                                have hcmm : pathClear mm (t2 :: qr2) = true := by
                                  simp [pathClear, hmg] at hcq
                                  exact hcq
                                simp [pathClear, mapGet_mapSet_self, hIH.2 hcmm]
                | jStr s0 => simp at hset
                | jInt n0 => simp at hset
                | jBool b0 => simp at hset
                | jList xs0 => simp at hset

/-- A field whose tag parses with no type-match options initializes with
its primary path and is not skipped. -/
theorem fieldInit_no_opts (stname rawTag : String) (v : GoValue) (tr : String)
    (t : FieldTag) (hp : parseTag rawTag = (t, false))
    (hopts : t.Opts.MatchTypes = []) :
    fieldInit stname rawTag v tr
      = .ok { tag := t, Target := tr, Value := v, Skip := false, Path := t.Path,
              stname := stname } := by
  simp [fieldInit, hp, resolvePath, findTypeMatch, hopts, checkPerTypePathNaming]

/-- The pieces of a compatible field: scalar value, a tag that parses
without skip, no type-match options, a valid plain declared path. -/
theorem compatField_parts {f : GoField} (h : compatField f = true) :
    (scalarJ f.value).isSome = true ∧ parseTag f.rawTag = ((parseTag f.rawTag).1, false) ∧
    (parseTag f.rawTag).1.Opts.MatchTypes = [] ∧
    pathOK (parseTag f.rawTag).1.Path = true := by
  simp only [compatField, Bool.and_eq_true, Bool.not_eq_true'] at h
  obtain ⟨⟨⟨h1, h2⟩, h3⟩, h4⟩ := h
  refine ⟨h1, ?_, ?_, h4⟩
  · conv_lhs => rw [← @Prod.mk.eta _ _ (parseTag f.rawTag)]
    rw [h2]
  · simpa using h3

/-- Encoding a compatible record: the walk succeeds without error, every
nonzero field's value is readable back at its declared path, and paths
independent of all written paths keep their reads and walkability. -/
theorem encFields_compat (tr : String) :
    ∀ (fields : List GoField) (m0 : JMap),
      fields.all compatField = true →
      pathsIndep (fields.map resolvedPath) = true →
      (∀ f ∈ fields, pathClear m0 (resolvedPath f) = true) →
      ∃ M, encFields tr fields m0 = .ok (M, none) ∧
        (∀ f ∈ fields, isZero f.value = false →
          getValueFromMap M (resolvedPath f) = .ok (scalarJ f.value)) ∧
        (∀ q, pathOK q = true →
          (∀ f ∈ fields, isZero f.value = false →
            (resolvedPath f).isPrefixOf q = false ∧ q.isPrefixOf (resolvedPath f) = false) →
          getValueFromMap M q = getValueFromMap m0 q ∧
          (pathClear m0 q = true → pathClear M q = true)) := by
  intro fields
  induction fields with
  | nil =>
      intro m0 _ _ _
      exact ⟨m0, by simp [encFields], by simp, fun q _ _ => ⟨rfl, id⟩⟩
  | cons f fs ih =>
      intro m0 hall hind hclear
      obtain ⟨stname, rawTag, v⟩ := f
      rw [List.all_cons, Bool.and_eq_true] at hall
      obtain ⟨hcf, hfs⟩ := hall
      obtain ⟨hscalar, hp, hopts, hpOK⟩ := compatField_parts hcf
      simp only [GoField.value, GoField.rawTag] at hscalar hp hopts hpOK
      rw [List.map_cons] at hind
      simp only [pathsIndep, Bool.and_eq_true] at hind
      obtain ⟨hindhead, hindrest⟩ := hind
      have hindpair : ∀ g ∈ fs,
          (resolvedPath (GoField.mk stname rawTag v)).isPrefixOf (resolvedPath g) = false ∧
          (resolvedPath g).isPrefixOf (resolvedPath (GoField.mk stname rawTag v)) = false := by
        intro g hg
        have h := List.all_eq_true.mp hindhead (resolvedPath g) (List.mem_map_of_mem _ hg)
        rw [Bool.and_eq_true, Bool.not_eq_true', Bool.not_eq_true'] at h
        exact h
      have hinit := fieldInit_no_opts stname rawTag v tr (parseTag rawTag).1 hp hopts
      cases hz : isZero v with
      | true =>
          have hstep : encFields tr (GoField.mk stname rawTag v :: fs) m0
              = encFields tr fs m0 := by
            simp [encFields, hinit, skipIfEmpty, hz]
          obtain ⟨M, hM, hg2, hg3⟩ := ih m0 hfs hindrest
            (fun g hg => hclear g (List.mem_cons_of_mem _ hg))
          refine ⟨M, by rw [hstep]; exact hM, ?_, ?_⟩
          · intro g hg hgz
            rcases List.mem_cons.mp hg with heq | hmem
            · subst heq
              simp [GoField.value, hz] at hgz
            · exact hg2 g hmem hgz
          · intro q hqok hqind
            exact hg3 q hqok (fun g hg hgz => hqind g (List.mem_cons_of_mem _ hg) hgz)
      | false =>
          obtain ⟨jv, hsjv⟩ := Option.isSome_iff_exists.mp hscalar
          have hclearf : pathClear m0 (parseTag rawTag).1.Path = true :=
            hclear (GoField.mk stname rawTag v) (List.mem_cons_self _ _)
          obtain ⟨m1, hset1, hget1⟩ :=
            setValueIntoMap_ok_get tr hsjv (parseTag rawTag).1.Path hpOK m0 hclearf
          have hpres := setValueIntoMap_preserves_other tr (parseTag rawTag).1.Path
            m0 m1 hpOK hset1
          have hstep : encFields tr (GoField.mk stname rawTag v :: fs) m0
              = encFields tr fs m1 := by
            rcases scalarJ_isSome_cases hscalar with ⟨s0, hv⟩ | ⟨n0, hv⟩ | ⟨b0, hv⟩ <;>
              subst hv <;>
              simp [encFields, hinit, skipIfEmpty, hz, derefVal, hset1,
                Bind.bind, Except.bind]
          have hclear1 : ∀ g ∈ fs, pathClear m1 (resolvedPath g) = true := by
            intro g hg
            have hgok : pathOK (resolvedPath g) = true := by
              have hcg := List.all_eq_true.mp hfs g hg
              exact (compatField_parts hcg).2.2.2
            have hpg := hindpair g hg
            exact (hpres (resolvedPath g) hgok hpg.1 hpg.2).2
              (hclear g (List.mem_cons_of_mem _ hg))
          obtain ⟨M, hM, hg2, hg3⟩ := ih m1 hfs hindrest hclear1
          refine ⟨M, by rw [hstep]; exact hM, ?_, ?_⟩
          · intro g hg hgz
            rcases List.mem_cons.mp hg with heq | hmem
            · subst heq
              have hq3 := hg3 (resolvedPath (GoField.mk stname rawTag v)) hpOK
                (fun g' hg' _ => ⟨(hindpair g' hg').2, (hindpair g' hg').1⟩)
              show getValueFromMap M (resolvedPath (GoField.mk stname rawTag v))
                = .ok (scalarJ (GoField.mk stname rawTag v).value)
              rw [hq3.1]
              show getValueFromMap m1 (parseTag rawTag).1.Path = _
              rw [hget1]
              simp [GoField.value, hsjv]
            · exact hg2 g hmem hgz
          · intro q hqok hqind
            have h3 := hg3 q hqok
              (fun g hg hgz => hqind g (List.mem_cons_of_mem _ hg) hgz)
            have hpq := hqind (GoField.mk stname rawTag v) (List.mem_cons_self _ _)
              (by simpa [GoField.value] using hz)
            have hpres_q := hpres q hqok hpq.1 hpq.2
            exact ⟨by rw [h3.1, hpres_q.1], fun hc => h3.2 (hpres_q.2 hc)⟩

/-- Two distinct member fields of a path-independent record have mutually
non-prefix declared paths. -/
theorem indep_of_mem_distinct {fields : List GoField}
    (hind : pathsIndep (fields.map resolvedPath) = true)
    {f g : GoField} (hf : f ∈ fields) (hg : g ∈ fields) (hne : f ≠ g) :
    (resolvedPath f).isPrefixOf (resolvedPath g) = false ∧
    (resolvedPath g).isPrefixOf (resolvedPath f) = false := by
  induction fields with
  | nil => cases hf
  | cons a rest ih =>
      rw [List.map_cons] at hind
      simp only [pathsIndep, Bool.and_eq_true] at hind
      obtain ⟨hh, hr⟩ := hind
      rcases List.mem_cons.mp hf with rfl | hf2
      · rcases List.mem_cons.mp hg with rfl | hg2
        · exact absurd rfl hne
        · have h := List.all_eq_true.mp hh (resolvedPath g) (List.mem_map_of_mem _ hg2)
          rw [Bool.and_eq_true, Bool.not_eq_true', Bool.not_eq_true'] at h
          exact h
      · rcases List.mem_cons.mp hg with rfl | hg2
        · have h := List.all_eq_true.mp hh (resolvedPath f) (List.mem_map_of_mem _ hf2)
          rw [Bool.and_eq_true, Bool.not_eq_true', Bool.not_eq_true'] at h
          exact ⟨h.2, h.1⟩
        · exact ih hr hf2 hg2

/-- Encoding a compatible record into a fresh tree: the walk succeeds, a
field's declared path reads back its scalar value when the field is
nonzero and absence when it is zero, and every valid path independent of
all nonzero fields' paths reads back absent. -/
theorem encFields_compat_nil (tr : String) (fields : List GoField)
    (hc : compatRecord fields = true) :
    ∃ M, encFields tr fields [] = .ok (M, none) ∧
      (∀ f ∈ fields, getValueFromMap M (resolvedPath f)
        = .ok (if isZero f.value = true then none else scalarJ f.value)) ∧
      (∀ q, pathOK q = true →
        (∀ f ∈ fields, isZero f.value = false →
          (resolvedPath f).isPrefixOf q = false ∧ q.isPrefixOf (resolvedPath f) = false) →
        getValueFromMap M q = .ok none) := by
  rw [compatRecord, Bool.and_eq_true, Bool.and_eq_true] at hc
  obtain ⟨⟨hall, hind⟩, hnames⟩ := hc
  obtain ⟨M, hM, hg2, hg3⟩ :=
    encFields_compat tr fields [] hall hind (fun f _ => pathClear_nil _)
  refine ⟨M, hM, ?_, ?_⟩
  · intro f hf
    cases hz : isZero f.value with
    | false => simpa [hz] using hg2 f hf hz
    | true =>
        have hfok : pathOK (resolvedPath f) = true :=
          (compatField_parts (List.all_eq_true.mp hall f hf)).2.2.2
        have hne : resolvedPath f ≠ [] := by
          intro hcontra
          rw [hcontra] at hfok
          simp [pathOK] at hfok
        have h3 := hg3 (resolvedPath f) hfok ?_
        · simp only [hz, if_true]
          rw [h3.1]
          exact getValueFromMap_nil _ hne
        · intro g hg hgz
          have hgf : g ≠ f := by
            intro he
            rw [he, hz] at hgz
            cases hgz
          exact indep_of_mem_distinct hind hg hf hgf
  · intro q hqok hqind
    have h3 := hg3 q hqok hqind
    rw [h3.1]
    have hne : q ≠ [] := by
      intro hcontra
      rw [hcontra] at hqok
      simp [pathOK] at hqok
    exact getValueFromMap_nil _ hne

/-- C5: encoding a compatible record never writes zero-valued fields —
the tree is produced without error and each zero-valued field's declared
path is absent from it. -/
theorem omitempty_zero_fields_absent (tr : String) (fields : List GoField)
    (hc : compatRecord fields = true) :
    ∃ M, encFields tr fields [] = .ok (M, none) ∧
      ∀ f ∈ fields, isZero f.value = true →
        getValueFromMap M (resolvedPath f) = .ok none := by
  obtain ⟨M, hM, hg, _⟩ := encFields_compat_nil tr fields hc
  exact ⟨M, hM, fun f hf hz => by simpa [hz] using hg f hf⟩

/-- Witness for C5 at a concrete record: the zero-valued string field's
path is absent from the produced tree. -/
theorem omitempty_zero_fields_absent_witness :
    compatRecord
      [ GoField.mk "Name" "metadata.namefield" (.vStr "test"),
        GoField.mk "Empty" "metadata.emptyf" (.vStr ""),
        GoField.mk "Count" "config.somecount" (.vInt 999) ] = true ∧
    ∃ M, encFields "APIObject"
        [ GoField.mk "Name" "metadata.namefield" (.vStr "test"),
          GoField.mk "Empty" "metadata.emptyf" (.vStr ""),
          GoField.mk "Count" "config.somecount" (.vInt 999) ] [] = .ok (M, none) ∧
      ∀ f ∈ [ GoField.mk "Name" "metadata.namefield" (.vStr "test"),
              GoField.mk "Empty" "metadata.emptyf" (.vStr ""),
              GoField.mk "Count" "config.somecount" (.vInt 999) ],
        isZero f.value = true →
          getValueFromMap M (resolvedPath f) = .ok none :=
  ⟨by decide,
   omitempty_zero_fields_absent "APIObject"
     [ GoField.mk "Name" "metadata.namefield" (.vStr "test"),
       GoField.mk "Empty" "metadata.emptyf" (.vStr ""),
       GoField.mk "Count" "config.somecount" (.vInt 999) ] (by decide)⟩

/-- Distinct-names record: head versus tail names. -/
theorem namesDistinct_parts {f : GoField} {fs : List GoField}
    (h : namesDistinct (f :: fs) = true) :
    (∀ g ∈ fs, g.fname ≠ f.fname) ∧ namesDistinct fs = true := by
  simp only [namesDistinct, Bool.and_eq_true] at h
  obtain ⟨hh, hr⟩ := h
  refine ⟨?_, hr⟩
  intro g hg
  have := List.all_eq_true.mp hh g hg
  simpa using this

/-- The zero scalar of a compatible field's kind. -/
theorem zeroLike_scalar {v : GoValue} (h : (scalarJ v).isSome = true) :
    (scalarJ (zeroLike v)).isSome = true ∧ isZero (zeroLike v) = true := by
  rcases scalarJ_isSome_cases h with ⟨s, rfl⟩ | ⟨n, rfl⟩ | ⟨b, rfl⟩ <;>
    simp [zeroLike, scalarJ, isZero]

/-- Decoding a compatible shape against a tree that answers each declared
path with the field's encoded value (or absence for zero fields): the walk
succeeds without error, untouched keys keep their value, and each nonzero
field's declared name holds its scalar tree value. -/
theorem decFields_scalar (tr : String) (M : JMap) :
    ∀ (fields : List GoField) (into : JMap),
      fields.all compatField = true →
      namesDistinct fields = true →
      (∀ f ∈ fields, getValueFromMap M (resolvedPath f)
        = .ok (if isZero f.value = true then none else scalarJ f.value)) →
      ∃ out, decFields M tr (zeroFieldsOf fields) into [] = .ok (out, none) ∧
        (∀ k, (∀ f ∈ fields, f.fname ≠ k) → mapGet out k = mapGet into k) ∧
        (∀ f ∈ fields, isZero f.value = false →
          mapGet out f.fname = scalarJ f.value) := by
  intro fields
  induction fields with
  | nil =>
      intro into _ _ _
      exact ⟨into, by simp [decFields, zeroFieldsOf], fun k _ => rfl, by simp⟩
  | cons f fs ih =>
      intro into hall hnames hget
      obtain ⟨stname, rawTag, v⟩ := f
      rw [List.all_cons, Bool.and_eq_true] at hall
      obtain ⟨hcf, hfs⟩ := hall
      obtain ⟨hscalar, hp, hopts, hpOK⟩ := compatField_parts hcf
      simp only [GoField.value, GoField.rawTag] at hscalar hp hopts hpOK
      obtain ⟨hnf, hnfs⟩ := namesDistinct_parts hnames
      have hinit := fieldInit_no_opts stname rawTag (zeroLike v) tr (parseTag rawTag).1 hp hopts
      have hzf : zeroFieldsOf (GoField.mk stname rawTag v :: fs)
          = GoField.mk stname rawTag (zeroLike v) :: zeroFieldsOf fs := by
        simp [zeroFieldsOf, GoField.fname, GoField.rawTag, GoField.value]
      have hgetf := hget (GoField.mk stname rawTag v) (List.mem_cons_self _ _)
      simp only [GoField.value, resolvedPath, GoField.rawTag] at hgetf
      have hgetfs : ∀ g ∈ fs, getValueFromMap M (resolvedPath g)
          = .ok (if isZero g.value = true then none else scalarJ g.value) :=
        fun g hg => hget g (List.mem_cons_of_mem _ hg)
      cases hz : isZero v with
      | true =>
          rw [hz, if_pos rfl] at hgetf
          have hstep : decFields M tr (zeroFieldsOf (GoField.mk stname rawTag v :: fs)) into []
              = decFields M tr (zeroFieldsOf fs) into [] := by
            rw [hzf]
            rcases scalarJ_isSome_cases hscalar with ⟨s0, hv⟩ | ⟨n0, hv⟩ | ⟨b0, hv⟩ <;>
              subst hv <;>
              simp only [zeroLike] at hinit <;>
              simp [decFields, hinit, chRoot, derefVal, zeroLike, hgetf,
                Bind.bind, Except.bind] <;>
              (split <;> rename_i heq <;> rw [hgetf] at heq <;>
                (try cases heq) <;> (try rfl))
          obtain ⟨out, hout, hk, hval⟩ := ih into hfs hnfs hgetfs
          refine ⟨out, by rw [hstep]; exact hout, ?_, ?_⟩
          · intro k hkav
            exact hk k (fun g hg => hkav g (List.mem_cons_of_mem _ hg))
          · intro g hg hgz
            rcases List.mem_cons.mp hg with heq | hmem
            · subst heq
              simp [GoField.value, hz] at hgz
            · exact hval g hmem hgz
      | false =>
          obtain ⟨jv, hsjv⟩ := Option.isSome_iff_exists.mp hscalar
          rw [hz] at hgetf
          simp only [Bool.false_eq_true, if_false] at hgetf
          rw [hsjv] at hgetf
          have hstep : decFields M tr (zeroFieldsOf (GoField.mk stname rawTag v :: fs)) into []
              = decFields M tr (zeroFieldsOf fs) (mapSet into stname jv) [] := by
            rw [hzf]
            rcases scalarJ_isSome_cases hscalar with ⟨s0, hv⟩ | ⟨n0, hv⟩ | ⟨b0, hv⟩ <;>
              subst hv <;>
              simp only [zeroLike] at hinit <;>
              simp [decFields, hinit, chRoot, derefVal, zeroLike, hgetf,
                isStructSlice, GoField.fname, Bind.bind, Except.bind] <;>
              (split <;> rename_i heq <;> rw [hgetf] at heq <;>
                (try cases heq) <;> (try rfl))
          obtain ⟨out, hout, hk, hval⟩ := ih (mapSet into stname jv) hfs hnfs hgetfs
          refine ⟨out, by rw [hstep]; exact hout, ?_, ?_⟩
          · intro k hkav
            have h1 := hk k (fun g hg => hkav g (List.mem_cons_of_mem _ hg))
            have h2 : stname ≠ k := by
              have := hkav (GoField.mk stname rawTag v) (List.mem_cons_self _ _)
              simpa [GoField.fname] using this
            rw [h1, mapGet_mapSet_other _ _ _ _ h2]
          · intro g hg hgz
            rcases List.mem_cons.mp hg with heq | hmem
            · subst heq
              have h1 := hk (GoField.mk stname rawTag v).fname
                (fun g2 hg2 => hnf g2 hg2)
              simp only [GoField.fname] at h1 ⊢
              rw [h1, mapGet_mapSet_self]
              simp [GoField.value, hsjv]
            · exact hval g hmem hgz

set_option maxRecDepth 4096 in
/-- Looking a field's name up in the hydrated fresh record finds that
field's hydrated entry (names being distinct). -/
theorem fieldLookup_hydrateFields (out : JMap) :
    ∀ (fields : List GoField), namesDistinct fields = true →
      ∀ f ∈ fields,
        fieldLookup (hydrateFields (zeroFieldsOf fields) out) f.fname
          = some (match mapGet out f.fname with
                  | some j => hydrateValue (zeroLike f.value) j
                  | none => zeroLike f.value) := by
  intro fields
  induction fields with
  | nil => intro _ f hf; cases hf
  | cons a rest ih =>
      intro hnames f hf
      obtain ⟨hna, hnrest⟩ := namesDistinct_parts hnames
      obtain ⟨aname, atag, av⟩ := a
      have hzf : zeroFieldsOf (GoField.mk aname atag av :: rest)
          = GoField.mk aname atag (zeroLike av) :: zeroFieldsOf rest := by
        simp [zeroFieldsOf, GoField.fname, GoField.rawTag, GoField.value]
      have hhf : hydrateFields (GoField.mk aname atag (zeroLike av) :: zeroFieldsOf rest) out
          = (match mapGet out aname with
             | some j => GoField.mk aname atag (hydrateValue (zeroLike av) j)
             | none => GoField.mk aname atag (zeroLike av)) :: hydrateFields (zeroFieldsOf rest) out := rfl
      rcases List.mem_cons.mp hf with rfl | hmem
      · rw [hzf, hhf]
        cases hmg : mapGet out aname with
        | some j =>
            simp only [GoField.fname, GoField.value, hmg]
            simp only [fieldLookup]
            simp
        | none =>
            simp only [GoField.fname, GoField.value, hmg]
            simp only [fieldLookup]
            simp
      · have hne2 : (aname == f.fname) = false := by
          have h0 := hna f hmem
          simp [GoField.fname] at h0
          exact beq_eq_false_iff_ne.mpr (fun he => h0 he.symm)
        have hrec := ih hnrest f hmem
        rw [hzf, hhf]
        cases hmg : mapGet out aname with
        | some j =>
            simp only [fieldLookup, hne2]
            exact hrec
        | none =>
            simp only [fieldLookup, hne2]
            exact hrec

/-- C1: encode-then-decode round trip over a round-trip-compatible
annotated record shape — encoding the record, decoding the resulting tree
against the record's own shape (the compatible peer hop being the
identity on the shared tree by the external codec's correctness), and
hydrating a fresh record recovers every nonzero field's value; zero
fields are the ones omit-empty drops. -/
theorem encode_decode_roundTrip (trE trD : String) (fields : List GoField)
    (hc : compatRecord fields = true) :
    ∃ r2, roundTrip trE trD fields = some r2 ∧
      ∀ f ∈ fields, isZero f.value = false → fieldLookup r2 f.fname = some f.value := by
  have hc2 := hc
  rw [compatRecord, Bool.and_eq_true, Bool.and_eq_true] at hc2
  obtain ⟨⟨hall, hind⟩, hnames⟩ := hc2
  obtain ⟨M, hM, hget, _⟩ := encFields_compat_nil trE fields hc
  obtain ⟨out, hdec, hk, hval⟩ := decFields_scalar trD M fields [] hall hnames hget
  refine ⟨hydrateFields (zeroFieldsOf fields) out, ?_, ?_⟩
  · simp [roundTrip, hM, hdec]
  · intro f hf hz
    have hl := fieldLookup_hydrateFields out fields hnames f hf
    have hv := hval f hf hz
    have hcf := List.all_eq_true.mp hall f hf
    have hsc := (compatField_parts hcf).1
    rcases scalarJ_isSome_cases hsc with ⟨s0, hfv⟩ | ⟨n0, hfv⟩ | ⟨b0, hfv⟩ <;>
      rw [hl, hv, hfv] <;>
      simp [scalarJ, zeroLike, hydrateValue, hfv]

/-- Witness for C1 at a concrete record with shared path prefixes and one
zero-valued (omit-empty dropped) field. -/
theorem encode_decode_roundTrip_witness :
    compatRecord
      [ GoField.mk "Name" "metadata.namefield" (.vStr "test"),
        GoField.mk "Count" "config.somecount" (.vInt 999),
        GoField.mk "Flag" "metadata.flag" (.vBool true),
        GoField.mk "Empty" "metadata.emptyf" (.vStr "") ] = true ∧
    ∃ r2, roundTrip "APIObject" "SystemStruct"
        [ GoField.mk "Name" "metadata.namefield" (.vStr "test"),
          GoField.mk "Count" "config.somecount" (.vInt 999),
          GoField.mk "Flag" "metadata.flag" (.vBool true),
          GoField.mk "Empty" "metadata.emptyf" (.vStr "") ] = some r2 ∧
      ∀ f ∈ [ GoField.mk "Name" "metadata.namefield" (.vStr "test"),
              GoField.mk "Count" "config.somecount" (.vInt 999),
              GoField.mk "Flag" "metadata.flag" (.vBool true),
              GoField.mk "Empty" "metadata.emptyf" (.vStr "") ],
        isZero f.value = false → fieldLookup r2 f.fname = some f.value :=
  ⟨by decide,
   encode_decode_roundTrip "APIObject" "SystemStruct"
     [ GoField.mk "Name" "metadata.namefield" (.vStr "test"),
       GoField.mk "Count" "config.somecount" (.vInt 999),
       GoField.mk "Flag" "metadata.flag" (.vBool true),
       GoField.mk "Empty" "metadata.emptyf" (.vStr "") ] (by decide)⟩

/-- C7: a struct field annotated with the dismiss-nesting marker splices
its children into the parent map — encoding the one-field record equals
encoding the children directly, the produced tree has no key named after
the struct field itself (its name heading none of the children's paths),
and each child sits at its own declared path. -/
theorem dismiss_nesting_splices (tr pname ctn : String) (cfields : List GoField)
    (hc : compatRecord cfields = true)
    (hnz : isZero (GoValue.vStruct ctn cfields) = false)
    (hpn : pathSegOK pname = true)
    (hname : ∀ c ∈ cfields, (resolvedPath c).headD "" ≠ pname) :
    ∃ T, encFields tr [GoField.mk pname DISMISS_NESTED (.vStruct ctn cfields)] []
          = .ok (T, none) ∧
        encFields tr [GoField.mk pname DISMISS_NESTED (.vStruct ctn cfields)] []
          = encFields tr cfields [] ∧
        mapGet T pname = none ∧
        ∀ c ∈ cfields, getValueFromMap T (resolvedPath c)
          = .ok (if isZero c.value = true then none else scalarJ c.value) := by
  have hc2 := hc
  rw [compatRecord, Bool.and_eq_true, Bool.and_eq_true] at hc2
  obtain ⟨⟨hall, hind⟩, _⟩ := hc2
  obtain ⟨M, hM, hget, habs⟩ := encFields_compat_nil tr cfields hc
  have hinit : fieldInit pname DISMISS_NESTED (.vStruct ctn cfields) tr
      = .ok { tag := { RawOpts := [], Path := [DISMISS_NESTED],
                       Opts := { MatchTypes := [] } },
              Target := tr, Value := .vStruct ctn cfields, Skip := false,
              Path := [DISMISS_NESTED], stname := pname } :=
    fieldInit_no_opts pname DISMISS_NESTED (.vStruct ctn cfields) tr
      { RawOpts := [], Path := [DISMISS_NESTED], Opts := { MatchTypes := [] } }
      rfl rfl
  have hstep : encFields tr [GoField.mk pname DISMISS_NESTED (.vStruct ctn cfields)] []
      = .ok (M, none) := by
    simp [encFields, hinit, skipIfEmpty, hnz, derefVal, dissmisNesting,
      hM, Bind.bind, Except.bind]
  refine ⟨M, hstep, by rw [hstep, hM], ?_, hget⟩
  have hq := habs [pname] (by simp [pathOK, hpn]) ?_
  · have : getValueFromMap M [pname] = .ok (mapGet M pname) := by
      simp [getValueFromMap]
    rw [this] at hq
    exact Except.ok.inj hq
  · intro c hc3 hcz
    have hcok : pathOK (resolvedPath c) = true :=
      (compatField_parts (List.all_eq_true.mp hall c hc3)).2.2.2
    cases hpc : resolvedPath c with
    | nil =>
        rw [hpc] at hcok
        simp [pathOK] at hcok
    | cons c0 crest =>
        have hc0 : c0 ≠ pname := by
          have := hname c hc3
          rw [hpc] at this
          simpa using this
        constructor
        · simp [List.isPrefixOf, hc0]
        · simp [List.isPrefixOf]
          intro he
          exact absurd he.symm hc0

/-- Witness for C7 at a concrete dismiss-nesting struct field with two
scalar children. -/
theorem dismiss_nesting_splices_witness :
    ∃ T, encFields "T"
          [GoField.mk "Child" DISMISS_NESTED
            (.vStruct "Inner" [ GoField.mk "P" "some.prop" (.vStr "z"),
                                GoField.mk "Q" "other.q" (.vInt 7) ])] []
          = .ok (T, none) ∧
        encFields "T"
          [GoField.mk "Child" DISMISS_NESTED
            (.vStruct "Inner" [ GoField.mk "P" "some.prop" (.vStr "z"),
                                GoField.mk "Q" "other.q" (.vInt 7) ])] []
          = encFields "T" [ GoField.mk "P" "some.prop" (.vStr "z"),
                            GoField.mk "Q" "other.q" (.vInt 7) ] [] ∧
        mapGet T "Child" = none ∧
        ∀ c ∈ [ GoField.mk "P" "some.prop" (.vStr "z"),
                GoField.mk "Q" "other.q" (.vInt 7) ],
          getValueFromMap T (resolvedPath c)
            = .ok (if isZero c.value = true then none else scalarJ c.value) :=
  dismiss_nesting_splices "T" "Child" "Inner"
    [ GoField.mk "P" "some.prop" (.vStr "z"),
      GoField.mk "Q" "other.q" (.vInt 7) ]
    (by decide) (by decide) (by decide) (by decide)
